import Mathlib

/-!
Shallow embedding of `src/shared/matrix.rs` from tom-h-f/bletchley-park.

A grid is modelled by its dimensions `R`, `C` and a function
`g : Nat → Nat → String` giving the `Display` output of the cell at
row `r`, column `c` (only indices `r < R`, `c < C` are ever consulted,
mirroring `self.data[r][c]`).  Rust machine strings are modelled by
Lean `String`; Rust `str::len` is the UTF-8 byte count and Rust
format-width padding counts characters, both modelled explicitly.
-/

namespace Bletchley

/-- Rust `str::len()`: the UTF-8 byte length of a string. -/
def rustLen (s : String) : Nat := s.utf8ByteSize

/-- Rust formatting of a string with a right-align width specifier:
left-pad with spaces up to `width` characters, a no-op when the string
already has at least that many characters. -/
def padLeft (w : Nat) (s : String) : String :=
  String.mk (List.replicate (w - s.length) ' ') ++ s

/-- The write-a-space-before-every-column-except-the-first loop shape:
pieces joined by a single space, no leading or trailing separator. -/
def sepJoin : List String → String
  | [] => ""
  | [x] => x
  | x :: y :: xs => x ++ " " ++ sepJoin (y :: xs)

/-- A sequence of `writeln!` calls: every line is followed by `"\n"`. -/
def concatLines : List String → String
  | [] => ""
  | l :: ls => l ++ "\n" ++ concatLines ls

/-- Lines 30–36: the mutable-maximum double loop over all rows and
columns of the byte lengths of the cell display strings, starting at 0. -/
def maxwFull (R C : Nat) (g : Nat → Nat → String) : Nat :=
  (List.range R).foldl
    (fun acc r => (List.range C).foldl (fun a c => Nat.max a (rustLen (g r c))) acc) 0

/-- Lines 40–48: one data row of the `Display` rendering. -/
def fullRow (w C : Nat) (row : Nat → String) : String :=
  "[" ++ sepJoin ((List.range C).map (fun c => padLeft w (row c))) ++ "]"

/-- Lines 22–52: `impl fmt::Display for Matrix` (`render_full`). -/
def renderFull (R C : Nat) (g : Nat → Nat → String) : String :=
  if R = 0 ∨ C = 0 then
    toString R ++ "x" ++ toString C ++ " Matrix: []" ++ "\n"
  else
    toString R ++ "x" ++ toString C ++ " Matrix:" ++ "\n" ++
      concatLines ((List.range R).map (fun r => fullRow (maxwFull R C g) C (g r)))

/-- Line 58: `const MAX_R: usize = 6`. -/
def MAX_R : Nat := 6

/-- Line 59: `const MAX_C: usize = 8`. -/
def MAX_C : Nat := 8

/-- Line 87: `let ell = "â€¦";` — the literal in the source is the
three-character sequence U+00E2, U+20AC, U+00A6 (a mojibake ellipsis),
whose UTF-8 byte length is 7. -/
def ell : String := "â€¦"

/-- Lines 80–85: the width scan of the `Debug` rendering, identical loop
body to the `Display` scan but over the shown window only. -/
def maxwWindow (R C : Nat) (g : Nat → Nat → String) : Nat :=
  maxwFull (min R MAX_R) (min C MAX_C) g

/-- Line 88: `maxw = maxw.max(ell.len());`. -/
def maxwDiag (R C : Nat) (g : Nat → Nat → String) : Nat :=
  Nat.max (maxwWindow R C g) (rustLen ell)

/-- Lines 66–71: the metadata header of the `Debug` rendering. -/
def diagHeader (R C : Nat) : String :=
  "Matrix<_, " ++ toString R ++ ", " ++ toString C ++ "> \x7b rows: " ++
    toString R ++ ", cols: " ++ toString C ++
    (if min R MAX_R < R then ", rows_truncated" else "") ++
    (if min C MAX_C < C then ", cols_truncated" else "") ++ " \x7d"

/-- Lines 100–102 and 115–117: the elided-columns suffix, a space, the
ellipsis marker and the count of columns beyond the cap. -/
def colsSuffix (C : Nat) : String :=
  " " ++ ell ++ " (+" ++ toString (C - min C MAX_C) ++ " cols)"

/-- Lines 91–104: one shown data row of the `Debug` rendering. -/
def diagRow (w C : Nat) (row : Nat → String) : String :=
  "[" ++ sepJoin ((List.range (min C MAX_C)).map (fun c => padLeft w (row c))) ++
    (if min C MAX_C < C then colsSuffix C else "") ++ "]"

/-- Lines 107–119: the omitted-rows summary row of the `Debug` rendering. -/
def diagSummary (w R C : Nat) : String :=
  "[" ++ sepJoin ((List.range (min C MAX_C)).map (fun _ => padLeft w ell)) ++
    (if min C MAX_C < C then colsSuffix C else "") ++
    "] (+" ++ toString (R - min R MAX_R) ++ " rows)"

/-- The body rows of the `Debug` rendering: the shown rows, then the
summary row exactly when rows are elided. -/
def diagRows (R C : Nat) (g : Nat → Nat → String) : List String :=
  (List.range (min R MAX_R)).map (fun r => diagRow (maxwDiag R C g) C (g r)) ++
    (if min R MAX_R < R then [diagSummary (maxwDiag R C g) R C] else [])

/-- Lines 55–122: `impl fmt::Debug for Matrix` (`render_diagnostic`). -/
def renderDiagnostic (R C : Nat) (g : Nat → Nat → String) : String :=
  diagHeader R C ++ "\n" ++
    (if R = 0 ∨ C = 0 then "[]" ++ "\n" else concatLines (diagRows R C g))

/-! ### Observers: Rust `str::lines()` and the token split used by the
repo test `display_uniform_width`. -/

/-- Split a character list at every occurrence of `sep`; `acc` holds the
current piece reversed. -/
def splitCharAux (sep : Char) : List Char → List Char → List (List Char)
  | [], acc => [acc.reverse]
  | c :: cs, acc =>
    if c = sep then acc.reverse :: splitCharAux sep cs []
    else splitCharAux sep cs (c :: acc)

/-- Drop a final empty piece, as Rust `str::lines()` does for text ending
in a newline. -/
def dropTrailingEmpty : List (List Char) → List (List Char)
  | [] => []
  | [l] => if l = [] then [] else [l]
  | l :: l₂ :: ls => l :: dropTrailingEmpty (l₂ :: ls)

/-- Rust `str::lines()` for carriage-return-free text. -/
def rustLines (s : String) : List String :=
  (dropTrailingEmpty (splitCharAux '\n' s.data [])).map String.mk

/-- Rust `inner.split(' ').filter(|t| !t.is_empty())` from the repo test. -/
def spaceTokens (s : String) : List String :=
  ((splitCharAux ' ' s.data []).filter (fun t => !t.isEmpty)).map String.mk

/-- The bracket-interior of a rendered data line: everything strictly
between the leading `[` and the trailing `]`. -/
def bracketInterior (l : String) : String :=
  String.mk ((l.data.drop 1).dropLast)

/-- The row-major enumeration of the cell indices of an `R × C` grid. -/
def gridIdx (R C : Nat) : List (Nat × Nat) :=
  ((List.range R).map (fun r => (List.range C).map (fun c => (r, c)))).flatten

/-- No newline character occurs in the string: such strings occupy one
output line. -/
def noNL (s : String) : Prop := '\n' ∉ s.data

instance (s : String) : Decidable (noNL s) :=
  inferInstanceAs (Decidable ('\n' ∉ s.data))

/-! ### Fold-max lemmas and the characterization of the width scans -/

lemma foldl_max_shift (l : List Nat) (a : Nat) :
    l.foldl Nat.max a = Nat.max a (l.foldl Nat.max 0) := by
  induction l generalizing a with
  | nil => exact (Nat.max_eq_left (Nat.zero_le a)).symm
  | cons x xs ih =>
    rw [List.foldl_cons, List.foldl_cons, ih (Nat.max a x), ih (Nat.max 0 x)]
    have h0 : Nat.max 0 x = x := Nat.max_eq_right (Nat.zero_le x)
    have hassoc : Nat.max (Nat.max a x) (xs.foldl Nat.max 0) =
        Nat.max a (Nat.max x (xs.foldl Nat.max 0)) := Nat.max_assoc a x _
    rw [h0, hassoc]

lemma foldl_max_init_le (l : List Nat) (a : Nat) : a ≤ l.foldl Nat.max a := by
  rw [foldl_max_shift]
  exact Nat.le_max_left _ _

lemma le_foldl_max_of_mem {l : List Nat} {x : Nat} (h : x ∈ l) (a : Nat) :
    x ≤ l.foldl Nat.max a := by
  induction l generalizing a with
  | nil => cases h
  | cons y ys ih =>
    rw [List.foldl_cons, foldl_max_shift]
    rcases List.mem_cons.mp h with rfl | hmem
    · exact Nat.le_trans (Nat.le_max_right a x) (Nat.le_max_left _ _)
    · exact Nat.le_trans (ih hmem 0) (Nat.le_max_right _ _)

lemma foldl_max_attain (l : List Nat) (a : Nat) :
    l.foldl Nat.max a = a ∨ l.foldl Nat.max a ∈ l := by
  induction l generalizing a with
  | nil => exact Or.inl rfl
  | cons x xs ih =>
    rw [List.foldl_cons]
    rcases ih (Nat.max a x) with h | h
    · rw [h]
      rcases Nat.le_total a x with hax | hxa
      · refine Or.inr ?_
        have hx : Nat.max a x = x := Nat.max_eq_right hax
        rw [hx]
        exact List.mem_cons_self x xs
      · exact Or.inl (Nat.max_eq_left hxa)
    · exact Or.inr (List.mem_cons_of_mem x h)

lemma foldl_max_mono {l₁ l₂ : List Nat} (h : List.Forall₂ (· ≤ ·) l₁ l₂) :
    ∀ {a₁ a₂ : Nat}, a₁ ≤ a₂ → l₁.foldl Nat.max a₁ ≤ l₂.foldl Nat.max a₂ := by
  induction h with
  | nil => exact fun h₂ => h₂
  | cons hxy _ ih => exact fun ha => ih (max_le_max ha hxy)

lemma forall₂_le_map {α : Type} (f h : α → Nat) (l : List α)
    (H : ∀ x ∈ l, f x ≤ h x) : List.Forall₂ (· ≤ ·) (l.map f) (l.map h) := by
  induction l with
  | nil => exact List.Forall₂.nil
  | cons a as ih =>
    exact List.Forall₂.cons (H a (List.mem_cons_self a as))
      (ih fun x hx => H x (List.mem_cons_of_mem a hx))

lemma foldl_max_flatten (L : List (List Nat)) (a : Nat) :
    L.flatten.foldl Nat.max a = L.foldl (fun acc l => l.foldl Nat.max acc) a := by
  induction L generalizing a with
  | nil => rfl
  | cons l ls ih => simp [List.foldl_append, ih]

lemma mem_gridIdx {R C r c : Nat} : (r, c) ∈ gridIdx R C ↔ r < R ∧ c < C := by
  simp [gridIdx]

lemma maxwFull_eq_foldl (R C : Nat) (g : Nat → Nat → String) :
    maxwFull R C g =
      ((gridIdx R C).map (fun p => rustLen (g p.1 p.2))).foldl Nat.max 0 := by
  unfold maxwFull gridIdx
  rw [List.map_flatten, foldl_max_flatten, List.map_map, List.foldl_map]
  simp [List.foldl_map]

lemma le_maxwFull {R C : Nat} {g : Nat → Nat → String} {r c : Nat}
    (hr : r < R) (hc : c < C) : rustLen (g r c) ≤ maxwFull R C g := by
  rw [maxwFull_eq_foldl]
  have hm : rustLen (g r c) ∈ (gridIdx R C).map (fun p => rustLen (g p.1 p.2)) :=
    List.mem_map.mpr ⟨(r, c), mem_gridIdx.mpr ⟨hr, hc⟩, rfl⟩
  exact le_foldl_max_of_mem hm 0

lemma maxwFull_attain {R C : Nat} {g : Nat → Nat → String}
    (hR : 0 < R) (hC : 0 < C) :
    ∃ r, r < R ∧ ∃ c, c < C ∧ maxwFull R C g = rustLen (g r c) := by
  rcases foldl_max_attain ((gridIdx R C).map (fun p => rustLen (g p.1 p.2))) 0 with h | h
  · refine ⟨0, hR, 0, hC, ?_⟩
    have h0 : maxwFull R C g = 0 := by rw [maxwFull_eq_foldl, h]
    have hb : rustLen (g 0 0) ≤ maxwFull R C g := le_maxwFull hR hC
    omega
  · rcases List.mem_map.mp h with ⟨⟨r, c⟩, hm, hx⟩
    rcases mem_gridIdx.mp hm with ⟨hr, hc⟩
    exact ⟨r, hr, c, hc, by rw [maxwFull_eq_foldl, hx]⟩

lemma maxwFull_mono {R C : Nat} {g₁ g₂ : Nat → Nat → String}
    (h : ∀ r, r < R → ∀ c, c < C → rustLen (g₁ r c) ≤ rustLen (g₂ r c)) :
    maxwFull R C g₁ ≤ maxwFull R C g₂ := by
  rw [maxwFull_eq_foldl, maxwFull_eq_foldl]
  refine foldl_max_mono (forall₂_le_map _ _ _ ?_) (Nat.le_refl 0)
  rintro ⟨r, c⟩ hm
  rcases mem_gridIdx.mp hm with ⟨hr, hc⟩
  exact h r hr c hc

/-! ### Length accounting: characters versus UTF-8 bytes -/

lemma mk_length (l : List Char) : (String.mk l).length = l.length := rfl

lemma length_le_rustLen (s : String) : s.length ≤ rustLen s := by
  rcases s with ⟨l⟩
  show l.length ≤ String.utf8ByteSize.go l
  induction l with
  | nil => exact Nat.le_refl 0
  | cons c cs ih =>
    show cs.length + 1 ≤ String.utf8ByteSize.go cs + c.utf8Size
    exact Nat.add_le_add ih c.utf8Size_pos

lemma padLeft_length {w : Nat} {s : String} (h : s.length ≤ w) :
    (padLeft w s).length = w := by
  simp only [padLeft, String.length_append, mk_length, List.length_replicate]
  omega

lemma sepJoin_length {w : Nat} : ∀ {L : List String}, (∀ s ∈ L, s.length = w) →
    (sepJoin L).length = L.length * w + (L.length - 1) := by
  intro L
  induction L with
  | nil => intro _; simp [sepJoin]
  | cons x xs ih =>
    cases xs with
    | nil =>
      intro h
      simp [sepJoin, h x (List.mem_cons_self x [])]
    | cons y ys =>
      intro h
      have hx : x.length = w := h x (List.mem_cons_self x (y :: ys))
      have hrest := ih (fun s hs => h s (List.mem_cons_of_mem x hs))
      show (x ++ " " ++ sepJoin (y :: ys)).length = _
      simp only [String.length_append, hx, hrest]
      have h1 : (" " : String).length = 1 := rfl
      simp only [h1, List.length_cons]
      ring_nf
      omega

lemma fullRow_length {w C : Nat} {row : Nat → String}
    (h : ∀ c, c < C → (row c).length ≤ w) :
    (fullRow w C row).length = 1 + (C * w + (C - 1)) + 1 := by
  have hall : ∀ s ∈ (List.range C).map (fun c => padLeft w (row c)), s.length = w := by
    intro s hs
    rcases List.mem_map.mp hs with ⟨c, hc, rfl⟩
    exact padLeft_length (h c (List.mem_range.mp hc))
  have h1 : ("[" : String).length = 1 := rfl
  have h2 : ("]" : String).length = 1 := rfl
  simp only [fullRow, String.length_append, h1, h2, sepJoin_length hall,
    List.length_map, List.length_range]

/-! ### Decimal rendering of naturals produces digit characters only -/

lemma digitChar_ne_newline (m : Nat) : Nat.digitChar m ≠ '\n' := by
  by_cases h16 : m < 16
  · interval_cases m <;> decide
  · have hstar : Nat.digitChar m = '*' := by
      unfold Nat.digitChar
      repeat rw [if_neg (by omega)]
    rw [hstar]
    decide

lemma toDigitsCore_mem {b : Nat} : ∀ (fuel n : Nat) (ds : List Char) (ch : Char),
    ch ∈ Nat.toDigitsCore b fuel n ds → (∃ m, ch = Nat.digitChar m) ∨ ch ∈ ds := by
  intro fuel
  induction fuel with
  | zero => exact fun n ds ch h => Or.inr h
  | succ fuel ih =>
    intro n ds ch h
    simp only [Nat.toDigitsCore] at h
    split at h
    · rcases List.mem_cons.mp h with rfl | h₂
      · exact Or.inl ⟨n % b, rfl⟩
      · exact Or.inr h₂
    · rcases ih _ _ _ h with h₂ | h₂
      · exact Or.inl h₂
      · rcases List.mem_cons.mp h₂ with rfl | h₃
        · exact Or.inl ⟨n % b, rfl⟩
        · exact Or.inr h₃

lemma mem_natToString {n : Nat} {ch : Char} (h : ch ∈ (toString n).data) :
    ∃ m, ch = Nat.digitChar m := by
  have h₂ : ch ∈ Nat.toDigitsCore 10 (n + 1) n [] := h
  rcases toDigitsCore_mem _ _ _ _ h₂ with h₃ | h₃
  · exact h₃
  · cases h₃

/-! ### The newline-free predicate and its closure properties -/

lemma noNL_append {s t : String} (hs : noNL s) (ht : noNL t) : noNL (s ++ t) := by
  simp only [noNL, String.data_append, List.mem_append]
  rintro (h | h)
  · exact hs h
  · exact ht h

lemma noNL_toString (n : Nat) : noNL (toString n) := by
  intro h
  rcases mem_natToString h with ⟨m, hm⟩
  exact digitChar_ne_newline m hm.symm

lemma noNL_padLeft {w : Nat} {s : String} (h : noNL s) : noNL (padLeft w s) := by
  refine noNL_append ?_ h
  intro hm
  have := List.eq_of_mem_replicate hm
  cases this

lemma noNL_sepJoin : ∀ {L : List String}, (∀ s ∈ L, noNL s) → noNL (sepJoin L) := by
  intro L
  induction L with
  | nil => intro _ h; cases h
  | cons x xs ih =>
    cases xs with
    | nil => exact fun h => h x (List.mem_cons_self x [])
    | cons y ys =>
      intro h
      show noNL (x ++ " " ++ sepJoin (y :: ys))
      refine noNL_append (noNL_append (h x (List.mem_cons_self _ _)) (by decide)) ?_
      exact ih (fun s hs => h s (List.mem_cons_of_mem x hs))

lemma noNL_ite (b : Prop) [Decidable b] {s t : String} (hs : noNL s) (ht : noNL t) :
    noNL (if b then s else t) := by
  split
  · exact hs
  · exact ht

lemma noNL_ell : noNL ell := by decide

lemma noNL_colsSuffix (C : Nat) : noNL (colsSuffix C) := by
  unfold colsSuffix
  exact noNL_append
    (noNL_append (noNL_append (noNL_append (by decide) noNL_ell) (by decide))
      (noNL_toString _)) (by decide)

lemma noNL_diagHeader (R C : Nat) : noNL (diagHeader R C) := by
  unfold diagHeader
  have hA : noNL ("Matrix<_, " ++ toString R ++ ", " ++ toString C ++ "> \x7b rows: " ++
      toString R ++ ", cols: " ++ toString C) :=
    noNL_append (noNL_append (noNL_append (noNL_append (noNL_append (noNL_append
      (noNL_append (by decide) (noNL_toString R)) (by decide)) (noNL_toString C))
      (by decide)) (noNL_toString R)) (by decide)) (noNL_toString C)
  exact noNL_append
    (noNL_append (noNL_append hA (noNL_ite _ (by decide) (by decide)))
      (noNL_ite _ (by decide) (by decide))) (by decide)

/-! ### Splitting on a separator character and Rust `lines()` -/

lemma splitCharAux_nil (sep : Char) (acc : List Char) :
    splitCharAux sep [] acc = [acc.reverse] := rfl

lemma splitCharAux_cons (sep c : Char) (cs acc : List Char) :
    splitCharAux sep (c :: cs) acc =
      if c = sep then acc.reverse :: splitCharAux sep cs []
      else splitCharAux sep cs (c :: acc) := rfl

lemma splitCharAux_ne_nil (sep : Char) : ∀ (l acc : List Char),
    splitCharAux sep l acc ≠ [] := by
  intro l
  induction l with
  | nil => intro acc h; cases h
  | cons c cs ih =>
    intro acc
    unfold splitCharAux
    split
    · intro h; cases h
    · exact ih _

lemma splitCharAux_append_sep (sep : Char) : ∀ (w : List Char), sep ∉ w →
    ∀ (rest acc : List Char),
    splitCharAux sep (w ++ sep :: rest) acc =
      (acc.reverse ++ w) :: splitCharAux sep rest [] := by
  intro w
  induction w with
  | nil =>
    intro _ rest acc
    simp [splitCharAux]
  | cons c cs ih =>
    intro hw rest acc
    have hc : ¬ (c = sep) := fun h => hw (h ▸ List.mem_cons_self c cs)
    have hcs : sep ∉ cs := fun h => hw (List.mem_cons_of_mem c h)
    show splitCharAux sep (c :: (cs ++ sep :: rest)) acc = _
    rw [splitCharAux_cons, if_neg hc, ih hcs rest (c :: acc)]
    simp

lemma splitCharAux_no_sep (sep : Char) : ∀ (w : List Char), sep ∉ w →
    ∀ (acc : List Char), splitCharAux sep w acc = [acc.reverse ++ w] := by
  intro w
  induction w with
  | nil => intro _ acc; simp [splitCharAux]
  | cons c cs ih =>
    intro hw acc
    have hc : ¬ (c = sep) := fun h => hw (h ▸ List.mem_cons_self c cs)
    have hcs : sep ∉ cs := fun h => hw (List.mem_cons_of_mem c h)
    rw [splitCharAux_cons, if_neg hc, ih hcs (c :: acc)]
    simp

lemma splitCharAux_replicate (sep : Char) : ∀ (k : Nat) (rest : List Char),
    splitCharAux sep (List.replicate k sep ++ rest) [] =
      List.replicate k [] ++ splitCharAux sep rest [] := by
  intro k
  induction k with
  | zero => intro rest; rfl
  | succ k ih =>
    intro rest
    show splitCharAux sep (sep :: (List.replicate k sep ++ rest)) [] = _
    rw [splitCharAux_cons, if_pos rfl, ih rest]
    simp [List.replicate_succ]

lemma dropTrailingEmpty_cons {l : List Char} {ls : List (List Char)} (h : ls ≠ []) :
    dropTrailingEmpty (l :: ls) = l :: dropTrailingEmpty ls := by
  cases ls with
  | nil => cases h rfl
  | cons a as => rfl

lemma rustLines_cons (line rest : String) (h : noNL line) :
    rustLines (line ++ "\n" ++ rest) = line :: rustLines rest := by
  unfold rustLines
  have hdata : (line ++ "\n" ++ rest).data = line.data ++ '\n' :: rest.data := by
    simp [String.data_append]
  rw [hdata, splitCharAux_append_sep '\n' line.data h rest.data [],
    List.reverse_nil, List.nil_append,
    dropTrailingEmpty_cons (splitCharAux_ne_nil '\n' rest.data [])]
  rfl

lemma rustLines_empty : rustLines "" = [] := rfl

lemma rustLines_single (line : String) (h : noNL line) :
    rustLines (line ++ "\n") = [line] := by
  unfold rustLines
  have hdata : (line ++ "\n").data = line.data ++ '\n' :: [] := by
    simp [String.data_append]
  rw [hdata, splitCharAux_append_sep '\n' line.data h [] [],
    List.reverse_nil, List.nil_append]
  rfl

lemma rustLines_concatLines : ∀ (L : List String), (∀ l ∈ L, noNL l) →
    rustLines (concatLines L) = L := by
  intro L
  induction L with
  | nil => intro _; exact rustLines_empty
  | cons l ls ih =>
    intro h
    show rustLines (l ++ "\n" ++ concatLines ls) = l :: ls
    rw [rustLines_cons l _ (h l (List.mem_cons_self l ls)),
      ih (fun s hs => h s (List.mem_cons_of_mem l hs))]

/-! ### Line structure of the two renderings -/

lemma noNL_fullRow {w C : Nat} {row : Nat → String}
    (h : ∀ c, c < C → noNL (row c)) : noNL (fullRow w C row) := by
  unfold fullRow
  refine noNL_append (noNL_append (by decide) (noNL_sepJoin ?_)) (by decide)
  intro s hs
  rcases List.mem_map.mp hs with ⟨c, hc, rfl⟩
  exact noNL_padLeft (h c (List.mem_range.mp hc))

lemma noNL_diagRow {w C : Nat} {row : Nat → String}
    (h : ∀ c, c < min C MAX_C → noNL (row c)) : noNL (diagRow w C row) := by
  unfold diagRow
  refine noNL_append (noNL_append (noNL_append (by decide) (noNL_sepJoin ?_))
    (noNL_ite _ (noNL_colsSuffix C) (by decide))) (by decide)
  intro s hs
  rcases List.mem_map.mp hs with ⟨c, hc, rfl⟩
  exact noNL_padLeft (h c (List.mem_range.mp hc))

lemma noNL_diagSummary (w R C : Nat) : noNL (diagSummary w R C) := by
  unfold diagSummary
  refine noNL_append (noNL_append (noNL_append (noNL_append (noNL_append (by decide)
    (noNL_sepJoin ?_)) (noNL_ite _ (noNL_colsSuffix C) (by decide))) (by decide))
    (noNL_toString _)) (by decide)
  intro s hs
  rcases List.mem_map.mp hs with ⟨c, hc, rfl⟩
  exact noNL_padLeft noNL_ell

lemma noNL_fullHeader (R C : Nat) :
    noNL (toString R ++ "x" ++ toString C ++ " Matrix:") :=
  noNL_append (noNL_append (noNL_append (noNL_toString R) (by decide))
    (noNL_toString C)) (by decide)

lemma renderFull_lines (R C : Nat) (g : Nat → Nat → String)
    (hR : 0 < R) (hC : 0 < C)
    (hnl : ∀ r, r < R → ∀ c, c < C → noNL (g r c)) :
    rustLines (renderFull R C g) =
      (toString R ++ "x" ++ toString C ++ " Matrix:") ::
        (List.range R).map (fun r => fullRow (maxwFull R C g) C (g r)) := by
  have hcond : ¬ (R = 0 ∨ C = 0) := by omega
  unfold renderFull
  rw [if_neg hcond, rustLines_cons _ _ (noNL_fullHeader R C),
    rustLines_concatLines]
  intro l hl
  rcases List.mem_map.mp hl with ⟨r, hr, rfl⟩
  exact noNL_fullRow (fun c hc => hnl r (List.mem_range.mp hr) c hc)

lemma renderDiagnostic_lines (R C : Nat) (g : Nat → Nat → String)
    (hR : 0 < R) (hC : 0 < C)
    (hnl : ∀ r, r < R → ∀ c, c < C → noNL (g r c)) :
    rustLines (renderDiagnostic R C g) = diagHeader R C :: diagRows R C g := by
  have hcond : ¬ (R = 0 ∨ C = 0) := by omega
  unfold renderDiagnostic
  rw [if_neg hcond, rustLines_cons _ _ (noNL_diagHeader R C),
    rustLines_concatLines]
  intro l hl
  unfold diagRows at hl
  rcases List.mem_append.mp hl with h | h
  · rcases List.mem_map.mp h with ⟨r, hr, rfl⟩
    refine noNL_diagRow (fun c hc => hnl r ?_ c ?_)
    · exact lt_of_lt_of_le (List.mem_range.mp hr) (Nat.min_le_left R MAX_R)
    · exact lt_of_lt_of_le hc (Nat.min_le_left C MAX_C)
  · split at h
    · rw [List.mem_singleton.mp h]
      exact noNL_diagSummary _ _ _
    · cases h

lemma renderFull_degenerate (R C : Nat) (g : Nat → Nat → String)
    (h : R = 0 ∨ C = 0) :
    renderFull R C g = toString R ++ "x" ++ toString C ++ " Matrix: []" ++ "\n" := by
  unfold renderFull
  rw [if_pos h]

lemma renderFull_degenerate_lines (R C : Nat) (g : Nat → Nat → String)
    (h : R = 0 ∨ C = 0) :
    rustLines (renderFull R C g) =
      [toString R ++ "x" ++ toString C ++ " Matrix: []"] := by
  rw [renderFull_degenerate R C g h]
  exact rustLines_single _
    (noNL_append (noNL_append (noNL_append (noNL_toString R) (by decide))
      (noNL_toString C)) (by decide))

lemma renderDiagnostic_degenerate_lines (R C : Nat) (g : Nat → Nat → String)
    (h : R = 0 ∨ C = 0) :
    rustLines (renderDiagnostic R C g) = [diagHeader R C, "[]"] := by
  unfold renderDiagnostic
  rw [if_pos h, rustLines_cons _ _ (noNL_diagHeader R C),
    rustLines_single "[]" (by decide)]

/-! ### Token recovery: splitting a rendered row on spaces returns the cells -/

lemma mk_data (s : String) : String.mk s.data = s := rfl

lemma filter_nonempty_replicate (k : Nat) :
    (List.replicate k ([] : List Char)).filter (fun t => !t.isEmpty) = [] := by
  induction k with
  | zero => rfl
  | succ k ih => simp [List.replicate_succ, List.filter_cons, ih]

lemma rawTokens_sepJoin_padded (w : Nat) : ∀ (cells : List String),
    (∀ s ∈ cells, s.data ≠ []) → (∀ s ∈ cells, ' ' ∉ s.data) →
    ((splitCharAux ' ' (sepJoin (cells.map (fun s => padLeft w s))).data []).filter
        (fun t => !t.isEmpty)) = cells.map String.data := by
  intro cells
  induction cells with
  | nil => intro _ _; rfl
  | cons s rest ih =>
    intro hne hsp
    have hs_ne : s.data ≠ [] := hne s (List.mem_cons_self s rest)
    have hs_sp : ' ' ∉ s.data := hsp s (List.mem_cons_self s rest)
    have hs_empty : s.data.isEmpty = false := by
      cases hd : s.data with
      | nil => cases hs_ne hd
      | cons a as => rfl
    cases rest with
    | nil =>
      show ((splitCharAux ' ' (padLeft w s).data []).filter (fun t => !t.isEmpty)) = [s.data]
      have hdata : (padLeft w s).data = List.replicate (w - s.length) ' ' ++ s.data := by
        simp [padLeft, String.data_append]
      rw [hdata, splitCharAux_replicate, splitCharAux_no_sep ' ' s.data hs_sp []]
      simp only [List.reverse_nil, List.nil_append, List.filter_append,
        filter_nonempty_replicate, List.filter_cons, hs_empty]
      rfl
    | cons t ts =>
      have hrest := ih (fun x hx => hne x (List.mem_cons_of_mem s hx))
        (fun x hx => hsp x (List.mem_cons_of_mem s hx))
      show ((splitCharAux ' '
        (padLeft w s ++ " " ++ sepJoin ((t :: ts).map (fun x => padLeft w x))).data []).filter
          (fun t => !t.isEmpty)) = s.data :: (t :: ts).map String.data
      have hdata : (padLeft w s ++ " " ++ sepJoin ((t :: ts).map (fun x => padLeft w x))).data =
          List.replicate (w - s.length) ' ' ++
            (s.data ++ ' ' :: (sepJoin ((t :: ts).map (fun x => padLeft w x))).data) := by
        simp [padLeft, String.data_append]
      rw [hdata, splitCharAux_replicate,
        splitCharAux_append_sep ' ' s.data hs_sp _ []]
      simp only [List.reverse_nil, List.nil_append, List.filter_append,
        filter_nonempty_replicate, List.filter_cons, hs_empty]
      rw [hrest]
      rfl

lemma spaceTokens_sepJoin_padded (w : Nat) (cells : List String)
    (hne : ∀ s ∈ cells, s.data ≠ []) (hsp : ∀ s ∈ cells, ' ' ∉ s.data) :
    spaceTokens (sepJoin (cells.map (fun s => padLeft w s))) = cells := by
  unfold spaceTokens
  rw [rawTokens_sepJoin_padded w cells hne hsp, List.map_map]
  exact (List.map_congr_left fun x _ => mk_data x).trans (List.map_id cells)

lemma bracketInterior_fullRow (w C : Nat) (row : Nat → String) :
    bracketInterior (fullRow w C row) =
      sepJoin ((List.range C).map (fun c => padLeft w (row c))) := by
  unfold bracketInterior fullRow
  have hdata : ("[" ++ sepJoin ((List.range C).map (fun c => padLeft w (row c))) ++ "]").data =
      '[' :: ((sepJoin ((List.range C).map (fun c => padLeft w (row c)))).data ++ [']']) := by
    simp [String.data_append]
  rw [hdata]
  show String.mk
    (((sepJoin ((List.range C).map (fun c => padLeft w (row c)))).data ++ [']']).dropLast) = _
  rw [List.dropLast_concat, mk_data]

/-! ### Equal row widths -/

lemma diagRow_length_eq {w C : Nat} {row₁ row₂ : Nat → String}
    (h₁ : ∀ c, c < min C MAX_C → (row₁ c).length ≤ w)
    (h₂ : ∀ c, c < min C MAX_C → (row₂ c).length ≤ w) :
    (diagRow w C row₁).length = (diagRow w C row₂).length := by
  have hall₁ : ∀ s ∈ (List.range (min C MAX_C)).map (fun c => padLeft w (row₁ c)),
      s.length = w := by
    intro s hs
    rcases List.mem_map.mp hs with ⟨c, hc, rfl⟩
    exact padLeft_length (h₁ c (List.mem_range.mp hc))
  have hall₂ : ∀ s ∈ (List.range (min C MAX_C)).map (fun c => padLeft w (row₂ c)),
      s.length = w := by
    intro s hs
    rcases List.mem_map.mp hs with ⟨c, hc, rfl⟩
    exact padLeft_length (h₂ c (List.mem_range.mp hc))
  unfold diagRow
  simp only [String.length_append, sepJoin_length hall₁, sepJoin_length hall₂,
    List.length_map, List.length_range]

/-! ### The claims -/

/-- Claim C1: for every grid with R > 0 and C > 0 (cells newline-free, so
that each cell occupies a single output line), `render_full` outputs the
header line "RxC Matrix:" followed by exactly R data lines; each data line
is a bracket, the C cells in column order each space-left-padded to width
maxw and separated by single spaces, and a closing bracket; maxw is the
maximum display-string length over all R times C cells (an upper bound
that is attained at some cell). -/
theorem claim_C1 (R C : Nat) (g : Nat → Nat → String)
    (hR : 0 < R) (hC : 0 < C)
    (hnl : ∀ r, r < R → ∀ c, c < C → noNL (g r c)) :
    rustLines (renderFull R C g) =
      (toString R ++ "x" ++ toString C ++ " Matrix:") ::
        (List.range R).map (fun r =>
          "[" ++ sepJoin ((List.range C).map (fun c =>
            padLeft (maxwFull R C g) (g r c))) ++ "]") ∧
    (∀ r, r < R → ∀ c, c < C → rustLen (g r c) ≤ maxwFull R C g) ∧
    (∃ r, r < R ∧ ∃ c, c < C ∧ maxwFull R C g = rustLen (g r c)) :=
  ⟨renderFull_lines R C g hR hC hnl,
    fun _ hr _ hc => le_maxwFull hr hc,
    maxwFull_attain hR hC⟩

/-- Witness for C1 at the concrete 2 by 2 grid whose cell (r, c) displays
as the decimal of r + c. -/
theorem claim_C1_witness :
    rustLines (renderFull 2 2 (fun r c => toString (r + c))) =
      ["2x2 Matrix:", "[0 1]", "[1 2]"] ∧
    maxwFull 2 2 (fun r c => toString (r + c)) = 1 := by
  have h := claim_C1 2 2 (fun r c => toString (r + c))
    (by decide) (by decide) (by decide)
  exact ⟨h.1.trans (by decide), by decide⟩

/-- Claim C4: for R, C > 0 the diagnostic width maxw is an upper bound of
the display-string lengths over the shown window only (rows below
min R MAX_R, columns below min C MAX_C), is at least the length of the
ellipsis marker, and equals one of those two quantities. -/
theorem claim_C4 (R C : Nat) (g : Nat → Nat → String)
    (hR : 0 < R) (hC : 0 < C) :
    rustLen ell ≤ maxwDiag R C g ∧
    (∀ r, r < min R MAX_R → ∀ c, c < min C MAX_C →
      rustLen (g r c) ≤ maxwDiag R C g) ∧
    (maxwDiag R C g = rustLen ell ∨
      ∃ r, r < min R MAX_R ∧ ∃ c, c < min C MAX_C ∧
        maxwDiag R C g = rustLen (g r c)) := by
  refine ⟨Nat.le_max_right _ _,
    fun r hr c hc => Nat.le_trans (le_maxwFull hr hc) (Nat.le_max_left _ _), ?_⟩
  rcases Nat.le_total (maxwWindow R C g) (rustLen ell) with h | h
  · exact Or.inl (Nat.max_eq_right h)
  · have hRw : 0 < min R MAX_R := lt_min_iff.mpr ⟨hR, by decide⟩
    have hCw : 0 < min C MAX_C := lt_min_iff.mpr ⟨hC, by decide⟩
    rcases maxwFull_attain (g := g) hRw hCw with ⟨r, hr, c, hc, heq⟩
    have h2 : maxwWindow R C g = rustLen (g r c) := heq
    refine Or.inr ⟨r, hr, c, hc, ?_⟩
    show Nat.max (maxwWindow R C g) (rustLen ell) = rustLen (g r c)
    rw [h2] at h ⊢
    exact Nat.max_eq_left h

/-- Witness for C4 at the concrete 1 by 1 grid with cell "ab". -/
theorem claim_C4_witness :
    rustLen ell ≤ maxwDiag 1 1 (fun _ _ => "ab") ∧
    (∀ r, r < min 1 MAX_R → ∀ c, c < min 1 MAX_C →
      rustLen ((fun _ _ => "ab") r c) ≤ maxwDiag 1 1 (fun _ _ => "ab")) ∧
    (maxwDiag 1 1 (fun _ _ => "ab") = rustLen ell ∨
      ∃ r, r < min 1 MAX_R ∧ ∃ c, c < min 1 MAX_C ∧
        maxwDiag 1 1 (fun _ _ => "ab") = rustLen ((fun _ _ => "ab") r c)) :=
  claim_C4 1 1 (fun _ _ => "ab") (by decide) (by decide)

/-- Claim C6: for R = 0 or C = 0, `render_full` emits the single header
line "RxC Matrix: []" with its terminator and nothing else. -/
theorem claim_C6 (R C : Nat) (g : Nat → Nat → String) (h : R = 0 ∨ C = 0) :
    renderFull R C g = toString R ++ "x" ++ toString C ++ " Matrix: []" ++ "\n" ∧
    rustLines (renderFull R C g) =
      [toString R ++ "x" ++ toString C ++ " Matrix: []"] :=
  ⟨renderFull_degenerate R C g h, renderFull_degenerate_lines R C g h⟩

/-- Witness for C6 at R = 0, C = 3. -/
theorem claim_C6_witness :
    renderFull 0 3 (fun _ _ => "") = "0x3 Matrix: []\n" ∧
    rustLines (renderFull 0 3 (fun _ _ => "")) = ["0x3 Matrix: []"] := by
  have h := claim_C6 0 3 (fun _ _ => "") (Or.inl rfl)
  exact ⟨h.1.trans (by decide), h.2.trans (by decide)⟩

/-- Counterexample to C7 as stated: for the degenerate 0 by 0 grid the
output of `render_full` is one single line, not two. -/
theorem claim_C7_counterexample :
    (rustLines (renderFull 0 0 (fun _ _ => ""))).length = 1 ∧
    (rustLines (renderFull 0 0 (fun _ _ => ""))).length ≠ 2 := by
  exact ⟨by decide, by decide⟩

/-- Claim C7 (amended): for R = 0 or C = 0 the output of `render_full` is
exactly one line — the header — containing "RxC" and the literal "[]",
with no data rows. -/
theorem claim_C7 (R C : Nat) (g : Nat → Nat → String) (h : R = 0 ∨ C = 0) :
    (rustLines (renderFull R C g)).length = 1 ∧
    rustLines (renderFull R C g) =
      [toString R ++ "x" ++ toString C ++ (" Matrix: " ++ "[]")] := by
  have hl := renderFull_degenerate_lines R C g h
  exact ⟨by rw [hl]; rfl, hl⟩

/-- Witness for C7 (amended) at R = 4, C = 0. -/
theorem claim_C7_witness :
    (rustLines (renderFull 4 0 (fun _ _ => ""))).length = 1 ∧
    rustLines (renderFull 4 0 (fun _ _ => "")) = ["4x0 Matrix: []"] := by
  have h := claim_C7 4 0 (fun _ _ => "") (Or.inr rfl)
  exact ⟨h.1, h.2.trans (by decide)⟩

/-- Claim C8: for R = 0 or C = 0, `render_diagnostic` emits "[]" on the
line after the metadata header and stops: exactly two lines in total and
no body beyond the "[]" line. -/
theorem claim_C8 (R C : Nat) (g : Nat → Nat → String) (h : R = 0 ∨ C = 0) :
    rustLines (renderDiagnostic R C g) = [diagHeader R C, "[]"] ∧
    renderDiagnostic R C g = diagHeader R C ++ "\n" ++ ("[]" ++ "\n") := by
  refine ⟨renderDiagnostic_degenerate_lines R C g h, ?_⟩
  unfold renderDiagnostic
  rw [if_pos h]

/-- Witness for C8 at R = 0, C = 5. -/
theorem claim_C8_witness :
    rustLines (renderDiagnostic 0 5 (fun _ _ => "")) =
      ["Matrix<_, 0, 5> \x7b rows: 0, cols: 5 \x7d", "[]"] := by
  have h := claim_C8 0 5 (fun _ _ => "") (Or.inl rfl)
  exact h.1.trans (by decide)

/-- Claim C10: the truncation flags of the diagnostic header are computed
from R and C alone, before the degenerate-shape check: a 0-column grid
with more than MAX_R rows still reports rows_truncated over an "[]" body,
and a 0-row grid with more than MAX_C columns still reports
cols_truncated over an "[]" body. -/
theorem claim_C10 (R C : Nat) (g : Nat → Nat → String) :
    (C = 0 → MAX_R < R →
      rustLines (renderDiagnostic R C g) =
        ["Matrix<_, " ++ toString R ++ ", " ++ toString C ++ "> \x7b rows: " ++
          toString R ++ ", cols: " ++ toString C ++ ", rows_truncated" ++ " \x7d",
         "[]"]) ∧
    (R = 0 → MAX_C < C →
      rustLines (renderDiagnostic R C g) =
        ["Matrix<_, " ++ toString R ++ ", " ++ toString C ++ "> \x7b rows: " ++
          toString R ++ ", cols: " ++ toString C ++ ", cols_truncated" ++ " \x7d",
         "[]"]) := by
  constructor
  · intro hC0 hR
    rw [renderDiagnostic_degenerate_lines R C g (Or.inr hC0)]
    subst hC0
    have hrt : min R MAX_R < R := by
      rw [Nat.min_eq_right (Nat.le_of_lt hR)]
      exact hR
    have hct : ¬ (min 0 MAX_C < 0) := by decide
    unfold diagHeader
    rw [if_pos hrt, if_neg hct, String.append_empty]
  · intro hR0 hC
    rw [renderDiagnostic_degenerate_lines R C g (Or.inl hR0)]
    subst hR0
    have hct : min 0 MAX_R < 0 → False := by decide
    have hcc : min C MAX_C < C := by
      rw [Nat.min_eq_right (Nat.le_of_lt hC)]
      exact hC
    unfold diagHeader
    rw [if_neg hct, if_pos hcc, String.append_empty]

/-- Witness for C10 at R = 7, C = 0: rows_truncated is reported although
the body is the degenerate "[]". -/
theorem claim_C10_witness :
    rustLines (renderDiagnostic 7 0 (fun _ _ => "")) =
      ["Matrix<_, 7, 0> \x7b rows: 7, cols: 0, rows_truncated \x7d", "[]"] := by
  have h := (claim_C10 7 0 (fun _ _ => "")).1 rfl (by decide)
  exact h.trans (by decide)

/-- Claim C2: for every grid with R > MAX_R = 6 and C > MAX_C = 8 (cells
newline-free), `render_diagnostic` emits the header, then exactly 6 shown
data rows, each holding the cells of columns 0..8 space-separated and
right-padded with the column-elision suffix before the closing bracket,
then exactly one summary row of 8 right-padded ellipsis placeholders with
the same column suffix, closed by the bracket carrying the row-omission
count. -/
theorem claim_C2 (R C : Nat) (g : Nat → Nat → String)
    (hR : MAX_R < R) (hC : MAX_C < C)
    (hnl : ∀ r, r < R → ∀ c, c < C → noNL (g r c)) :
    rustLines (renderDiagnostic R C g) =
      diagHeader R C ::
        ((List.range 6).map (fun r =>
          "[" ++ sepJoin ((List.range 8).map (fun c =>
            padLeft (maxwDiag R C g) (g r c))) ++
            (" " ++ ell ++ " (+" ++ toString (C - 8) ++ " cols)") ++ "]") ++
         ["[" ++ sepJoin ((List.range 8).map (fun _ =>
            padLeft (maxwDiag R C g) ell)) ++
            (" " ++ ell ++ " (+" ++ toString (C - 8) ++ " cols)") ++
            "] (+" ++ toString (R - 6) ++ " rows)"]) := by
  have hR6 : 6 < R := hR
  have hC8 : 8 < C := hC
  rw [renderDiagnostic_lines R C g (by omega) (by omega) hnl]
  congr 1
  unfold diagRows
  have hminR : min R MAX_R = 6 := Nat.min_eq_right hR6.le
  have hminC : min C MAX_C = 8 := Nat.min_eq_right hC8.le
  rw [hminR, if_pos hR6]
  congr 1
  · refine List.map_congr_left fun r hr => ?_
    unfold diagRow colsSuffix
    rw [hminC, if_pos hC8]
  · unfold diagSummary colsSuffix
    rw [hminC, hminR, if_pos hC8]

set_option maxRecDepth 4096 in
/-- Witness for C2 at the concrete 10 by 10 grid of cells "5". -/
theorem claim_C2_witness :
    rustLines (renderDiagnostic 10 10 (fun _ _ => "5")) =
      "Matrix<_, 10, 10> \x7b rows: 10, cols: 10, rows_truncated, cols_truncated \x7d" ::
        (List.replicate 6
          "[      5       5       5       5       5       5       5       5 â€¦ (+2 cols)]" ++
         ["[    â€¦     â€¦     â€¦     â€¦     â€¦     â€¦     â€¦     â€¦ â€¦ (+2 cols)] (+4 rows)"]) := by
  have h := claim_C2 10 10 (fun _ _ => "5") (by decide) (by decide) (by decide)
  exact h.trans (by decide)

/-- Claim C3: the diagnostic metadata header is
"Matrix<_, R, C> ... rows: R, cols: C ..." with ", rows_truncated"
present exactly when min R MAX_R < R and ", cols_truncated" present
exactly when min C MAX_C < C, independently and in that fixed order
(four cases below); and for grids at or below both caps the body is
exactly the R data rows with no elision suffixes. -/
theorem claim_C3 (R C : Nat) (g : Nat → Nat → String) :
    (MAX_R < R → MAX_C < C →
      diagHeader R C = "Matrix<_, " ++ toString R ++ ", " ++ toString C ++
        "> \x7b rows: " ++ toString R ++ ", cols: " ++ toString C ++
        ", rows_truncated" ++ ", cols_truncated" ++ " \x7d") ∧
    (MAX_R < R → C ≤ MAX_C →
      diagHeader R C = "Matrix<_, " ++ toString R ++ ", " ++ toString C ++
        "> \x7b rows: " ++ toString R ++ ", cols: " ++ toString C ++
        ", rows_truncated" ++ " \x7d") ∧
    (R ≤ MAX_R → MAX_C < C →
      diagHeader R C = "Matrix<_, " ++ toString R ++ ", " ++ toString C ++
        "> \x7b rows: " ++ toString R ++ ", cols: " ++ toString C ++
        ", cols_truncated" ++ " \x7d") ∧
    (R ≤ MAX_R → C ≤ MAX_C →
      diagHeader R C = "Matrix<_, " ++ toString R ++ ", " ++ toString C ++
        "> \x7b rows: " ++ toString R ++ ", cols: " ++ toString C ++ " \x7d") ∧
    (R ≤ MAX_R → C ≤ MAX_C → 0 < R → 0 < C →
      (∀ r, r < R → ∀ c, c < C → noNL (g r c)) →
      rustLines (renderDiagnostic R C g) =
        diagHeader R C ::
          (List.range R).map (fun r =>
            "[" ++ sepJoin ((List.range C).map (fun c =>
              padLeft (maxwDiag R C g) (g r c))) ++ "]")) := by
  have hrt : MAX_R < R → min R MAX_R < R := fun h => by
    rw [Nat.min_eq_right (Nat.le_of_lt h)]
    exact h
  have hrf : R ≤ MAX_R → ¬ (min R MAX_R < R) := fun h => by
    rw [Nat.min_eq_left h]
    omega
  have hct : MAX_C < C → min C MAX_C < C := fun h => by
    rw [Nat.min_eq_right (Nat.le_of_lt h)]
    exact h
  have hcf : C ≤ MAX_C → ¬ (min C MAX_C < C) := fun h => by
    rw [Nat.min_eq_left h]
    omega
  refine ⟨?_, ?_, ?_, ?_, ?_⟩
  · intro h1 h2
    unfold diagHeader
    rw [if_pos (hrt h1), if_pos (hct h2)]
  · intro h1 h2
    unfold diagHeader
    rw [if_pos (hrt h1), if_neg (hcf h2), String.append_empty]
  · intro h1 h2
    unfold diagHeader
    rw [if_neg (hrf h1), if_pos (hct h2), String.append_empty]
  · intro h1 h2
    unfold diagHeader
    rw [if_neg (hrf h1), if_neg (hcf h2), String.append_empty, String.append_empty]
  · intro h1 h2 hR0 hC0 hnl
    rw [renderDiagnostic_lines R C g hR0 hC0 hnl]
    congr 1
    unfold diagRows
    rw [Nat.min_eq_left h1, if_neg (by omega : ¬ (R < R)), List.append_nil]
    refine List.map_congr_left fun r hr => ?_
    unfold diagRow
    rw [Nat.min_eq_left h2, if_neg (by omega : ¬ (C < C)), String.append_empty]

/-- Witness for C3 at the concrete 3 by 4 grid of cells "7": no marker in
the header and exactly 3 suffix-free data rows. -/
theorem claim_C3_witness :
    diagHeader 3 4 = "Matrix<_, 3, 4> \x7b rows: 3, cols: 4 \x7d" ∧
    rustLines (renderDiagnostic 3 4 (fun _ _ => "7")) =
      "Matrix<_, 3, 4> \x7b rows: 3, cols: 4 \x7d" ::
        List.replicate 3 "[      7       7       7       7]" := by
  have h := claim_C3 3 4 (fun _ _ => "7")
  refine ⟨(h.2.2.2.1 (by decide) (by decide)).trans (by decide), ?_⟩
  exact (h.2.2.2.2 (by decide) (by decide) (by decide) (by decide) (by decide)).trans
    (by decide)

/-- Counterexample to C5 as stated: the claim quantifies over every
populated grid, but for the 1 by 1 grid whose cell displays as a single
space the bracket-interior of the only data line splits into 0 non-empty
tokens, not C = 1. -/
theorem claim_C5_counterexample :
    (rustLines (renderFull 1 1 (fun _ _ => " "))).tail = ["[ ]"] ∧
    (spaceTokens (bracketInterior "[ ]")).length ≠ 1 :=
  ⟨by decide, by decide⟩

/-- Claim C5 (amended): for every populated grid whose cells display as
non-empty strings free of spaces and newlines, every data line of
`render_full` has the same character length, and splitting the
bracket-interior of each data line on single spaces yields exactly the C
cell strings of that row: C tokens, none empty. -/
theorem claim_C5 (R C : Nat) (g : Nat → Nat → String)
    (hR : 0 < R) (hC : 0 < C)
    (hne : ∀ r, r < R → ∀ c, c < C → (g r c).data ≠ [])
    (hsp : ∀ r, r < R → ∀ c, c < C → ' ' ∉ (g r c).data)
    (hnl : ∀ r, r < R → ∀ c, c < C → noNL (g r c)) :
    (∀ l₁ ∈ (rustLines (renderFull R C g)).tail,
      ∀ l₂ ∈ (rustLines (renderFull R C g)).tail, l₁.length = l₂.length) ∧
    (∀ l ∈ (rustLines (renderFull R C g)).tail,
      ∃ r, r < R ∧ spaceTokens (bracketInterior l) = (List.range C).map (g r) ∧
        (spaceTokens (bracketInterior l)).length = C ∧
        ∀ t ∈ spaceTokens (bracketInterior l), t.data ≠ []) := by
  have htail : (rustLines (renderFull R C g)).tail =
      (List.range R).map (fun r => fullRow (maxwFull R C g) C (g r)) := by
    rw [renderFull_lines R C g hR hC hnl]
    rfl
  have hb : ∀ r, r < R → ∀ c, c < C → (g r c).length ≤ maxwFull R C g :=
    fun r hr c hc => Nat.le_trans (length_le_rustLen _) (le_maxwFull hr hc)
  constructor
  · intro l₁ h₁ l₂ h₂
    rw [htail] at h₁ h₂
    rcases List.mem_map.mp h₁ with ⟨r₁, hr₁, rfl⟩
    rcases List.mem_map.mp h₂ with ⟨r₂, hr₂, rfl⟩
    rw [fullRow_length (fun c hc => hb r₁ (List.mem_range.mp hr₁) c hc),
      fullRow_length (fun c hc => hb r₂ (List.mem_range.mp hr₂) c hc)]
  · intro l hl
    rw [htail] at hl
    rcases List.mem_map.mp hl with ⟨r, hr, rfl⟩
    have hrR : r < R := List.mem_range.mp hr
    have htok : spaceTokens (bracketInterior (fullRow (maxwFull R C g) C (g r))) =
        (List.range C).map (g r) := by
      rw [bracketInterior_fullRow]
      have hpads : (List.range C).map (fun c => padLeft (maxwFull R C g) (g r c)) =
          ((List.range C).map (g r)).map (fun s => padLeft (maxwFull R C g) s) :=
        (List.map_map (fun s => padLeft (maxwFull R C g) s) (g r) (List.range C)).symm
      rw [hpads]
      refine spaceTokens_sepJoin_padded _ _ ?_ ?_
      · intro s hs
        rcases List.mem_map.mp hs with ⟨c, hc, rfl⟩
        exact hne r hrR c (List.mem_range.mp hc)
      · intro s hs
        rcases List.mem_map.mp hs with ⟨c, hc, rfl⟩
        exact hsp r hrR c (List.mem_range.mp hc)
    refine ⟨r, hrR, htok, ?_, ?_⟩
    · rw [htok, List.length_map, List.length_range]
    · intro t ht
      rw [htok] at ht
      rcases List.mem_map.mp ht with ⟨c, hc, rfl⟩
      exact hne r hrR c (List.mem_range.mp hc)

/-- Witness for C5 (amended) at the concrete 2 by 2 grid whose cell
(r, c) displays as the decimal of r + c. -/
theorem claim_C5_witness :
    (∀ l₁ ∈ (rustLines (renderFull 2 2 (fun r c => toString (r + c)))).tail,
      ∀ l₂ ∈ (rustLines (renderFull 2 2 (fun r c => toString (r + c)))).tail,
        l₁.length = l₂.length) ∧
    (∀ l ∈ (rustLines (renderFull 2 2 (fun r c => toString (r + c)))).tail,
      ∃ r, r < 2 ∧
        spaceTokens (bracketInterior l) =
          (List.range 2).map ((fun r c => toString (r + c)) r) ∧
        (spaceTokens (bracketInterior l)).length = 2 ∧
        ∀ t ∈ spaceTokens (bracketInterior l), t.data ≠ []) :=
  claim_C5 2 2 (fun r c => toString (r + c)) (by decide) (by decide) (by decide)
    (by decide) (by decide)

/-- Claim C9: growing the display string of one cell (all others fixed)
cannot shrink the computed widths of either rendering, and in the second
rendering all data rows still share one width (shown rows, for the
diagnostic rendering). -/
theorem claim_C9 (R C : Nat) (g₁ g₂ : Nat → Nat → String) (r₀ c₀ : Nat)
    (hr₀ : r₀ < R) (hc₀ : c₀ < C)
    (hlonger : rustLen (g₁ r₀ c₀) < rustLen (g₂ r₀ c₀))
    (hsame : ∀ r, r < R → ∀ c, c < C → ¬ (r = r₀ ∧ c = c₀) → g₂ r c = g₁ r c) :
    maxwFull R C g₁ ≤ maxwFull R C g₂ ∧
    maxwDiag R C g₁ ≤ maxwDiag R C g₂ ∧
    (∀ r₁, r₁ < R → ∀ r₂, r₂ < R →
      (fullRow (maxwFull R C g₂) C (g₂ r₁)).length =
        (fullRow (maxwFull R C g₂) C (g₂ r₂)).length) ∧
    (∀ r₁, r₁ < min R MAX_R → ∀ r₂, r₂ < min R MAX_R →
      (diagRow (maxwDiag R C g₂) C (g₂ r₁)).length =
        (diagRow (maxwDiag R C g₂) C (g₂ r₂)).length) := by
  have hpt : ∀ r, r < R → ∀ c, c < C → rustLen (g₁ r c) ≤ rustLen (g₂ r c) := by
    intro r hr c hc
    by_cases hrc : r = r₀ ∧ c = c₀
    · rcases hrc with ⟨rfl, rfl⟩
      exact Nat.le_of_lt hlonger
    · rw [hsame r hr c hc hrc]
  have h2 : maxwDiag R C g₁ ≤ maxwDiag R C g₂ := by
    have hw : maxwWindow R C g₁ ≤ maxwWindow R C g₂ :=
      maxwFull_mono (fun r hr c hc =>
        hpt r (lt_of_lt_of_le hr (Nat.min_le_left R MAX_R)) c
          (lt_of_lt_of_le hc (Nat.min_le_left C MAX_C)))
    exact max_le_max hw (Nat.le_refl _)
  refine ⟨maxwFull_mono hpt, h2, ?_, ?_⟩
  · intro r₁ h₁ r₂ h₂
    have hb : ∀ r, r < R → ∀ c, c < C → (g₂ r c).length ≤ maxwFull R C g₂ :=
      fun r hr c hc => Nat.le_trans (length_le_rustLen _) (le_maxwFull hr hc)
    rw [fullRow_length (fun c hc => hb r₁ h₁ c hc),
      fullRow_length (fun c hc => hb r₂ h₂ c hc)]
  · intro r₁ h₁ r₂ h₂
    have hb : ∀ r, r < min R MAX_R → ∀ c, c < min C MAX_C →
        (g₂ r c).length ≤ maxwDiag R C g₂ := by
      intro r hr c hc
      exact Nat.le_trans (length_le_rustLen _)
        (Nat.le_trans (le_maxwFull hr hc) (Nat.le_max_left _ _))
    exact diagRow_length_eq (fun c hc => hb r₁ h₁ c hc) (fun c hc => hb r₂ h₂ c hc)

/-- Witness for C9: the 1 by 1 grids with cells "a" and "ab". -/
theorem claim_C9_witness :
    maxwFull 1 1 (fun _ _ => "a") ≤ maxwFull 1 1 (fun _ _ => "ab") ∧
    maxwDiag 1 1 (fun _ _ => "a") ≤ maxwDiag 1 1 (fun _ _ => "ab") ∧
    (∀ r₁, r₁ < 1 → ∀ r₂, r₂ < 1 →
      (fullRow (maxwFull 1 1 (fun _ _ => "ab")) 1 ((fun _ _ => "ab") r₁)).length =
        (fullRow (maxwFull 1 1 (fun _ _ => "ab")) 1 ((fun _ _ => "ab") r₂)).length) ∧
    (∀ r₁, r₁ < min 1 MAX_R → ∀ r₂, r₂ < min 1 MAX_R →
      (diagRow (maxwDiag 1 1 (fun _ _ => "ab")) 1 ((fun _ _ => "ab") r₁)).length =
        (diagRow (maxwDiag 1 1 (fun _ _ => "ab")) 1 ((fun _ _ => "ab") r₂)).length) :=
  claim_C9 1 1 (fun _ _ => "a") (fun _ _ => "ab") 0 0 (by decide) (by decide)
    (by decide) (by decide)

example : renderFull 0 3 (fun _ _ => "") = "0x3 Matrix: []\n" := by decide
example : renderFull 2 2 (fun r c => toString (r + c)) =
    "2x2 Matrix:\n[0 1]\n[1 2]\n" := by decide
example : rustLines "a\nbc\n" = ["a", "bc"] := by decide
example : spaceTokens "  ab c " = ["ab", "c"] := by decide
example : rustLen ell = 7 := by decide

end Bletchley
